import Mathlib

/-!
Verification development for the Tarjan background engine
(`antelope_background`): a shallow embedding of
`engine/flat_background.py` and `background/implementation.py`,
with theorems settling the frozen specification claims.

Matrices are embedded as total functions `Nat → Nat → ℚ` together with
explicit dimensions (mirroring scipy sparse shapes); sparse "nonzero"
enumeration becomes filtering `List.range dim` by nonzero-ness, which
matches scipy's ascending index order for a single row/column slice.
-/

namespace Antelope

/-- Exchange direction; serialized as "Input" or "Output". -/
inductive Direction
| Input
| Output
deriving DecidableEq, Repr

/-- Modelled from the spec: `comp_dir` from the external `antelope`
interface package (out of scope per the spec, not under src/): the
complement of a direction. -/
def comp_dir : Direction → Direction
| .Input => .Output
| .Output => .Input

/-- Modelled from the spec: the `scc_id` field of a `TermRef` is either a
sentinel ("trivial / not in an SCC") or the external reference of a
representative product flow. -/
inductive SccId
| sentinel
| sccRef (s : String)
deriving DecidableEq, Repr

/-- Modelled from the spec: `TermRef` (from `engine/background_layer.py`,
which is not under src/): the persisted 4-tuple
`(flow_ref, direction, term_ref, scc_id)`. -/
structure TermRef where
  flow_ref : String
  direction : Direction
  term_ref : String
  scc_id : SccId
deriving DecidableEq, Repr

instance : Inhabited TermRef := ⟨⟨"", .Input, "", .sentinel⟩⟩

/-- A canonical context object (owned by the external context manager),
carrying its compartment path and the elementary flag consulted by the
`emissions` / `cutoffs` split. -/
structure Ctx where
  path : List String
  elementary : Bool
deriving DecidableEq, Repr

/-- The termination field of an emitted `ExchDef`: python `None`, a raw
context path tuple (`sys_lci` missed entries), a process/term external ref
string, or a canonical context object (from `context_map`). -/
inductive ETerm
| null
| ctxPath (c : List String)
| refT (s : String)
| canon (c : Ctx)
deriving DecidableEq, Repr

/-- Modelled from the spec: `ExchDef` (from `engine/background_layer.py`,
which is not under src/): the emitted 5-tuple
`(node_ref, flow_ref, direction, termination, value)`.  The node may be
python `None` (e.g. `sys_lci` on an empty demand), hence `Option`. -/
structure ExchDef where
  process : Option String
  flow : String
  direction : Direction
  term : ETerm
  value : ℚ
deriving DecidableEq, Repr

/-! ## Matrices and the iterative solver (`_iterate_a_matrix`) -/

/-- A column vector, indexed by `Nat`; entries beyond the dimension are
irrelevant (kept at whatever value the constructor put there). -/
abbrev Vec := Nat → ℚ

/-- A matrix, indexed by `(row, col)`. -/
abbrev Mat := Nat → Nat → ℚ

/-- The zero vector (`csr_matrix(y.shape)`). -/
def zeroVec : Vec := fun _ => 0

/-- `a.dot(y)` for an `n × dim` matrix against a `dim`-vector. -/
def mulVec (a : Mat) (dim : Nat) (v : Vec) : Vec :=
  fun i => ((List.range dim).map (fun j => a i j * v j)).sum

/-- Elementwise absolute value (`abs`). -/
def ratAbs (x : ℚ) : ℚ := if x < 0 then -x else x

/-- `sum(abs(y).data)`: the L1 norm of a `dim`-vector. -/
def l1norm (dim : Nat) (v : Vec) : ℚ :=
  ((List.range dim).map (fun i => ratAbs (v i))).sum

/-- `_unit_column_vector(dim, inx)`: 1 at `inx`, 0 elsewhere. -/
def unit_column_vector (inx : Nat) : Vec :=
  fun i => if i = inx then 1 else 0

/-- Identity matrix entries (`eye`). -/
def eyeM : Mat := fun i j => if i = j then 1 else 0

/-- `eye(n) - a` (the `I − A` matrix passed to the direct solvers). -/
def imatOf (a : Mat) : Mat := fun i j => eyeM i j - a i j

/-- Computable matrix inverse over `ℚ`, used to model the external direct
sparse solvers (`spsolve`, `factorized` from scipy, out of scope per the
spec): inverse = det⁻¹ • adjugate on the top-left `dim × dim` block. -/
def matInv (dim : Nat) (a : Mat) : Mat :=
  let A : Matrix (Fin dim) (Fin dim) ℚ := fun i j => a i.val j.val
  let Ainv : Matrix (Fin dim) (Fin dim) ℚ := A.det⁻¹ • A.adjugate
  fun i j =>
    if h : i < dim ∧ j < dim then Ainv ⟨i, h.1⟩ ⟨j, h.2⟩ else 0

/-- The solver knob (`solver=` keyword): iterative power series (the
default, `None`), direct sparse solve, or cached LU factorization. -/
inductive Solver
| iterative
| spsolve
| factorize
deriving DecidableEq, Repr

/-- The `while mycount < count` loop of `_iterate_a_matrix`, with the loop
counter replaced by remaining fuel.  State: current power term `y`,
accumulated `total`, and `sumtotal` (running sum of increment norms).
Each pass adds `y` into `total`, advances `y := a·y`, and breaks when the
increment's L1 norm is zero or its ratio to the running total (updated
first) drops below `threshold`. -/
def iterLoop (a : Mat) (dim : Nat) (threshold : ℚ) :
    Nat → Vec → Vec → ℚ → Vec
| 0, _, total, _ => total
| fuel + 1, y, total, sumtotal =>
  let total2 : Vec := fun i => total i + y i
  let y2 := mulVec a dim y
  let inc := l1norm dim y2
  if inc = 0 then total2
  else if inc / (sumtotal + inc) < threshold then total2
  else iterLoop a dim threshold fuel y2 total2 (sumtotal + inc)

/-- `_iterate_a_matrix(a, y, threshold, count, solver)` on a `dim × dim`
matrix.  The `spsolve` branch is the direct solve `(I − a)⁻¹ y`; every
other solver value falls through to the iterative loop started at
`total = 0`, `sumtotal = 0.0`. -/
def iterate_a_matrix (a : Mat) (dim : Nat) (y : Vec) (threshold : ℚ)
    (count : Nat) (solver : Solver) : Vec :=
  match solver with
  | .spsolve => mulVec (matInv dim (imatOf a)) dim y
  | _ => iterLoop a dim threshold count y zeroVec 0

/-! ## The FlatBackground state -/

/-- The state held by a `FlatBackground` after `__init__`: the three
orderings (tuples of `TermRef`), the three foreground matrices, the
optional `(A, B)` pair (`lci_db`), the lazily created LU cache `_lu`
(modelled as the factorized matrix `I − A`), and the context map
rebuilt by `map_contexts`. -/
structure FlatBackground where
  fg : List TermRef
  bg : List TermRef
  ex : List TermRef
  af : Mat
  ad : Mat
  bf : Mat
  lciDb : Option (Mat × Mat)
  lu : Option Mat
  contextMap : String → Option Ctx

/-- `pdim` = number of foreground product flows. -/
def FlatBackground.pdim (fb : FlatBackground) : Nat := fb.fg.length

/-- `ndim` = number of background product flows. -/
def FlatBackground.ndim (fb : FlatBackground) : Nat := fb.bg.length

/-- `mdim` = number of exterior refs. -/
def FlatBackground.mdim (fb : FlatBackground) : Nat := fb.ex.length

/-- `self._complete`: both A and B present. -/
def FlatBackground.complete (fb : FlatBackground) : Bool :=
  fb.lciDb.isSome

/-- The dict-comprehension key `(k.term_ref, k.flow_ref)`. -/
def termKey (t : TermRef) : String × String := (t.term_ref, t.flow_ref)

/-- `{(k.term_ref, k.flow_ref): i for i, k in enumerate(l)}` as a lookup:
a fold in enumeration order where a later duplicate key overwrites an
earlier one, exactly like the python dict comprehension. -/
def buildIndex (l : List TermRef) (key : String × String) : Option Nat :=
  l.enum.foldl (fun acc ki => if termKey ki.2 = key then some ki.1 else acc)
    none

/-- `self._fg_index`. -/
def FlatBackground.fgIndex (fb : FlatBackground) : String × String → Option Nat :=
  buildIndex fb.fg

/-- `self._bg_index`. -/
def FlatBackground.bgIndex (fb : FlatBackground) : String × String → Option Nat :=
  buildIndex fb.bg

/-- `index_of(term_ref, flow_ref)`: foreground map first, then background
map, else `KeyError('Unknown termination ...')`. -/
def FlatBackground.index_of (fb : FlatBackground) (term_ref flow_ref : String) :
    Except String Nat :=
  let key := (term_ref, flow_ref)
  match fb.fgIndex key with
  | some i => .ok i
  | none =>
    match fb.bgIndex key with
    | some i => .ok i
    | none => .error "Unknown termination"

/-- `is_in_background(process, ref_flow)`: membership in `_bg_index`. -/
def FlatBackground.is_in_background (fb : FlatBackground)
    (process ref_flow : String) : Bool :=
  (fb.bgIndex (process, ref_flow)).isSome

/-! ## Exchange emission (`_generate_exch_defs`, `_generate_em_defs`) -/

/-- The emission rule shared verbatim by `_generate_exch_defs` and the
inline foreground-dependency loop in `foreground` (lines 378–384): a
negative stored coefficient is negated and keeps the child's stored
direction; a non-negative one uses the complement of the stored
direction. -/
def exchDefOfEntry (node_ref : Option String) (term : TermRef) (dat : ℚ) :
    ExchDef :=
  if dat < 0 then
    ⟨node_ref, term.flow_ref, term.direction, .refT term.term_ref, -dat⟩
  else
    ⟨node_ref, term.flow_ref, comp_dir term.direction, .refT term.term_ref, dat⟩

/-- Ascending indices of nonzero entries of a `dim`-vector
(`data_vec.nonzero()` on a one-column sparse slice). -/
def nonzeroIdx (dim : Nat) (v : Vec) : List Nat :=
  (List.range dim).filter (fun i => v i ≠ 0)

/-- `_generate_exch_defs(node_ref, data_vec, enumeration)`: one `ExchDef`
per nonzero entry, in ascending row order, terminations taken from the
supplied enumeration. -/
def generate_exch_defs (node_ref : Option String) (data_vec : Vec)
    (dim : Nat) (enumeration : List TermRef) : List ExchDef :=
  (nonzeroIdx dim data_vec).map
    (fun i => exchDefOfEntry node_ref (enumeration.getD i default) (data_vec i))

/-- The exchange emitted by `_generate_em_defs` for exterior row `i`:
emissions keep their natural sign and always use the complement of the
stored direction; the termination is the canonical context from
`context_map` (python `None` when absent or under
`CONTEXT_STATUS_ == 'compat'`, which we model as the absent case). -/
def emDefAt (fb : FlatBackground) (node_ref : Option String) (data_vec : Vec)
    (i : Nat) : ExchDef :=
  let term := fb.ex.getD i default
  let tm : ETerm := match fb.contextMap term.term_ref with
    | some c => .canon c
    | none => .null
  ⟨node_ref, term.flow_ref, comp_dir term.direction, tm, data_vec i⟩

/-- `_generate_em_defs(node_ref, data_vec)`: one emission per nonzero
exterior row, in ascending row order. -/
def FlatBackground.generate_em_defs (fb : FlatBackground)
    (node_ref : Option String) (data_vec : Vec) : List ExchDef :=
  (nonzeroIdx fb.mdim data_vec).map (emDefAt fb node_ref data_vec)

/-! ## Structural queries -/

/-- Ascending indices of nonzero entries along row `row` of an
`· × dim` matrix (`a[row, :].nonzero()[1]`). -/
def rowNonzeroIdx (a : Mat) (row dim : Nat) : List Nat :=
  (List.range dim).filter (fun j => a row j ≠ 0)

/-- `consumers(process, ref_flow)`: `index_of` (which can raise
`KeyError`), then nonzeros along the row: `_af` row for a foreground
flow; `_ad` row then `_A` row for a background flow.  With `lci_db`
absent, `self._A` is python `None` and subscripting it raises
`TypeError`. -/
def FlatBackground.consumers (fb : FlatBackground) (process ref_flow : String) :
    Except String (List TermRef) :=
  match fb.index_of process ref_flow with
  | .error e => .error e
  | .ok idx =>
    if fb.is_in_background process ref_flow then
      match fb.lciDb with
      | none => .error "TypeError"
      | some (A, _) =>
        .ok ((rowNonzeroIdx fb.ad idx fb.pdim).map (fun i => fb.fg.getD i default)
          ++ (rowNonzeroIdx A idx fb.ndim).map (fun i => fb.bg.getD i default))
    else
      .ok ((rowNonzeroIdx fb.af idx fb.pdim).map (fun i => fb.fg.getD i default))

/-- The `emitters` predicate on one exterior ref: flow must match; a
supplied direction must match; a supplied context must equal the mapped
canonical context. -/
def exMatches (fb : FlatBackground) (flow_ref : String)
    (direction : Option Direction) (context : Option Ctx) (x : TermRef) :
    Bool :=
  x.flow_ref = flow_ref &&
    (match direction with
     | none => true
     | some d => x.direction = d) &&
    (match context with
     | none => true
     | some c => fb.contextMap x.term_ref = some c)

/-- Deduplicating accumulation standing in for the python `set`
(`yielded.add`), keeping first-insertion order. -/
def addUnique (acc : List TermRef) (t : TermRef) : List TermRef :=
  if t ∈ acc then acc else acc ++ [t]

/-- One pass of the `emitters` scan over exterior index `idx`: skip a
non-matching exterior ref; on a match, collect producers from the `_bf`
row and then the `_B` row into the set — with `lci_db` absent, `_B` is
python `None` and subscripting it raises `TypeError`. -/
def emittersStep (fb : FlatBackground) (flow_ref : String)
    (direction : Option Direction) (context : Option Ctx) :
    Except String (List TermRef) → Nat → Except String (List TermRef) :=
  fun acc idx =>
    match acc with
    | .error e => .error e
    | .ok l =>
      if exMatches fb flow_ref direction context (fb.ex.getD idx default) then
        match fb.lciDb with
        | none => .error "TypeError"
        | some (_, B) =>
          .ok (((rowNonzeroIdx fb.bf idx fb.pdim).map
                  (fun i => fb.fg.getD i default)
                ++ (rowNonzeroIdx B idx fb.ndim).map
                  (fun i => fb.bg.getD i default)).foldl addUnique l)
      else acc

/-- `emitters(flow_ref, direction, context)`: scan the exterior refs in
order, accumulating the producer set; the whole set is accumulated before
the generator yields anything, so an error raised on any matching
exterior ref precedes the first yield. -/
def FlatBackground.emitters (fb : FlatBackground) (flow_ref : String)
    (direction : Option Direction) (context : Option Ctx) :
    Except String (List TermRef) :=
  (List.range fb.mdim).foldl (emittersStep fb flow_ref direction context) (.ok [])

/-- `dependencies(process, ref_flow)`: for a background flow the
foreground column is empty and the `_A` column is used (python `None`
subscript `TypeError` when `lci_db` is absent); for a foreground flow the
`_af` and `_ad` columns.  Unresolvable pairs hit the `KeyError` of the
python dict subscript. -/
def FlatBackground.dependencies (fb : FlatBackground)
    (process ref_flow : String) : Except String (List ExchDef) :=
  if fb.is_in_background process ref_flow then
    match fb.lciDb with
    | none => .error "TypeError"
    | some (A, _) =>
      let index := (fb.bgIndex (process, ref_flow)).getD 0
      .ok (generate_exch_defs (some process) (fun i => A i index) fb.ndim fb.bg)
  else
    match fb.fgIndex (process, ref_flow) with
    | none => .error "KeyError"
    | some index =>
      .ok (generate_exch_defs (some process) (fun i => fb.af i index) fb.pdim fb.fg
        ++ generate_exch_defs (some process) (fun i => fb.ad i index) fb.ndim fb.bg)

/-- `exterior(process, ref_flow)`: the `_B` column (background; python
`None` subscript `TypeError` when `lci_db` is absent) or the `_bf` column
(foreground), emitted through `_generate_em_defs`. -/
def FlatBackground.exterior (fb : FlatBackground) (process ref_flow : String) :
    Except String (List ExchDef) :=
  if fb.is_in_background process ref_flow then
    match fb.lciDb with
    | none => .error "TypeError"
    | some (_, B) =>
      let index := (fb.bgIndex (process, ref_flow)).getD 0
      .ok (fb.generate_em_defs (some process) (fun i => B i index))
  else
    match fb.fgIndex (process, ref_flow) with
    | none => .error "KeyError"
    | some index =>
      .ok (fb.generate_em_defs (some process) (fun i => fb.bf i index))

/-! ## Numerical queries -/

/-- `_x_tilde(process, ref_flow)` at a resolved foreground index:
`_iterate_a_matrix(_af, u_index)`. -/
def FlatBackground.xTildeAt (fb : FlatBackground) (index : Nat)
    (threshold : ℚ) (count : Nat) (solver : Solver) : Vec :=
  iterate_a_matrix fb.af fb.pdim (unit_column_vector index) threshold count solver

/-- `ad(process, ref_flow)`: background flows defer to `dependencies`;
foreground flows emit `Ad · x̃` against the background enumeration. -/
def FlatBackground.adQuery (fb : FlatBackground) (process ref_flow : String)
    (threshold : ℚ) (count : Nat) (solver : Solver) :
    Except String (List ExchDef) :=
  if fb.is_in_background process ref_flow then
    fb.dependencies process ref_flow
  else
    match fb.fgIndex (process, ref_flow) with
    | none => .error "KeyError"
    | some index =>
      let ad_tilde := mulVec fb.ad fb.pdim (fb.xTildeAt index threshold count solver)
      .ok (generate_exch_defs (some process) ad_tilde fb.ndim fb.bg)

/-- `bf(process, ref_flow)`: background flows defer to `exterior`;
foreground flows emit `Bf · x̃` through `_generate_em_defs`. -/
def FlatBackground.bfQuery (fb : FlatBackground) (process ref_flow : String)
    (threshold : ℚ) (count : Nat) (solver : Solver) :
    Except String (List ExchDef) :=
  if fb.is_in_background process ref_flow then
    fb.exterior process ref_flow
  else
    match fb.fgIndex (process, ref_flow) with
    | none => .error "KeyError"
    | some index =>
      let bf_tilde := mulVec fb.bf fb.pdim (fb.xTildeAt index threshold count solver)
      .ok (fb.generate_em_defs (some process) bf_tilde)

/-- `_compute_bg_lci(ad, solver)`: under `solver='factorize'` with an empty
cache, store the LU factorization of `I − A` first (one-shot); then solve
with the cache if present, else iterate; finally left-multiply by `B`.
With `lci_db` absent every path dereferences python `None` (`self._A.shape`
or `self._B.dot`) before anything is returned. -/
def FlatBackground.compute_bg_lci (fb : FlatBackground) (adv : Vec)
    (threshold : ℚ) (count : Nat) (solver : Solver) :
    Except String (FlatBackground × Vec) :=
  match fb.lciDb with
  | none => .error "TypeError"
  | some (A, B) =>
    let fb1 := if solver = .factorize ∧ fb.lu.isNone = true
      then { fb with lu := some (imatOf A) } else fb
    let bx := match fb1.lu with
      | none => iterate_a_matrix A fb.ndim adv threshold count solver
      | some l => mulVec (matInv fb.ndim l) fb.ndim adv
    .ok (fb1, mulVec B fb.ndim bx)

/-- `_compute_lci(process, ref_flow)`: background targets demand `u_i`
directly and require the lci database (`NoLciDatabase` otherwise);
foreground targets compute `x̃`, `ad̃ = Ad·x̃`, `bf̃ = Bf·x̃`, then either
`B·(I−A)⁻¹ad̃ + bf̃` (complete) or `bf̃` alone (incomplete). -/
def FlatBackground.compute_lci (fb : FlatBackground) (process ref_flow : String)
    (threshold : ℚ) (count : Nat) (solver : Solver) :
    Except String (FlatBackground × Vec) :=
  if fb.is_in_background process ref_flow then
    if fb.complete = false then .error "NoLciDatabase"
    else
      let advec := unit_column_vector ((fb.bgIndex (process, ref_flow)).getD 0)
      fb.compute_bg_lci advec threshold count solver
  else
    match fb.fgIndex (process, ref_flow) with
    | none => .error "KeyError"
    | some index =>
      let x_tilde := fb.xTildeAt index threshold count solver
      let ad_tilde := mulVec fb.ad fb.pdim x_tilde
      let bf_tilde := mulVec fb.bf fb.pdim x_tilde
      if fb.complete then
        match fb.compute_bg_lci ad_tilde threshold count solver with
        | .error e => .error e
        | .ok (fb1, bx) => .ok (fb1, fun i => bx i + bf_tilde i)
      else
        .ok (fb, bf_tilde)

/-- `lci(process, ref_flow)`: `_compute_lci` emitted through
`_generate_em_defs`. -/
def FlatBackground.lci (fb : FlatBackground) (process ref_flow : String)
    (threshold : ℚ) (count : Nat) (solver : Solver) :
    Except String (FlatBackground × List ExchDef) :=
  match fb.compute_lci process ref_flow threshold count solver with
  | .error e => .error e
  | .ok (fb1, v) => .ok (fb1, fb1.generate_em_defs (some process) v)

/-! ## `sys_lci` -/

/-- The termination of a demand exchange descriptor: a context
(`x.type == 'context'`), a process termination ref, or python `None`. -/
inductive DTerm
| context (c : List String)
| termRef (s : String)
| null
deriving DecidableEq, Repr

/-- One demand exchange fed to `sys_lci`, already coerced to the fields
`(process, flow, direction, termination/context, value)` the loop
reads. -/
structure DmdExch where
  process : String
  flow : String
  direction : Direction
  dterm : DTerm
  value : ℚ
deriving DecidableEq, Repr

/-- `_check_dirn`: `+1` when the complement of the exchange direction
equals the stored direction, else `-1`. -/
def check_dirn (term : TermRef) (x : DmdExch) : ℚ :=
  if comp_dir x.direction = term.direction then 1 else -1

/-- The accumulator of the `sys_lci` classification loop: first node ref,
foreground and background `(index, value)` pairs, and the `missed`
tail. -/
structure SysState where
  node_ref : Option String
  fgL : List (Nat × ℚ)
  bgL : List (Nat × ℚ)
  missed : List ExchDef
deriving Repr

/-- One pass of the `sys_lci` classification loop over a single demand
exchange. -/
def sysStep (fb : FlatBackground) (s : SysState) (x : DmdExch) : SysState :=
  let s := if s.node_ref = none then { s with node_ref := some x.process } else s
  match x.dterm with
  | .context c =>
    { s with missed := s.missed ++ [⟨some x.process, x.flow, x.direction, .ctxPath c, x.value⟩] }
  | .null =>
    { s with missed := s.missed ++ [⟨some x.process, x.flow, x.direction, .null, x.value⟩] }
  | .termRef t =>
    let key := (t, x.flow)
    match fb.fgIndex key with
    | some ind =>
      { s with fgL := s.fgL ++ [(ind, x.value * check_dirn (fb.fg.getD ind default) x)] }
    | none =>
      match fb.bgIndex key with
      | some ind =>
        { s with bgL := s.bgL ++ [(ind, x.value * check_dirn (fb.bg.getD ind default) x)] }
      | none =>
        { s with missed := s.missed ++ [⟨some x.process, x.flow, x.direction, .refT t, x.value⟩] }

/-- Duplicate-summing sparse-vector constructor
(`csr_matrix((vals, (inds, 0s)))`): entry `i` is the sum of all values
recorded at index `i`. -/
def sysAccum (entries : List (Nat × ℚ)) : Vec :=
  fun i => ((entries.filter (fun e => e.1 = i)).map (fun e => e.2)).sum

/-- The empty accumulator entering the `sys_lci` classification loop. -/
def sysState0 : SysState := ⟨none, [], [], []⟩

/-- The full `sys_lci` classification loop over the demand list. -/
def sysClassified (fb : FlatBackground) (demand : List DmdExch) : SysState :=
  demand.foldl (sysStep fb) sysState0

/-- `x̃` inside `sys_lci`: the iterative solve of the foreground demand
vector (`x_dmd`, the duplicate-summing sparse constructor over the
collected foreground entries). -/
def sysXTilde (fb : FlatBackground) (demand : List DmdExch) (threshold : ℚ)
    (count : Nat) (solver : Solver) : Vec :=
  iterate_a_matrix fb.af fb.pdim (sysAccum (sysClassified fb demand).fgL)
    threshold count solver

/-- `ad̃` inside `sys_lci`: `Ad · x̃` plus the consolidated direct
background demand (`ad_tilde[bg_ind[i]] += bg_val[i]`). -/
def sysAdTilde (fb : FlatBackground) (demand : List DmdExch) (threshold : ℚ)
    (count : Nat) (solver : Solver) : Vec :=
  fun i => mulVec fb.ad fb.pdim (sysXTilde fb demand threshold count solver) i +
    sysAccum (sysClassified fb demand).bgL i

/-- `bf̃` inside `sys_lci`: `Bf · x̃`. -/
def sysBfTilde (fb : FlatBackground) (demand : List DmdExch) (threshold : ℚ)
    (count : Nat) (solver : Solver) : Vec :=
  mulVec fb.bf fb.pdim (sysXTilde fb demand threshold count solver)

/-- `sys_lci(demand)`: classify every exchange, solve the foreground
demand, add direct background demand into `ad̃`, compute
`bx = B·(I−A)⁻¹·ad̃ + bf̃`, then yield the emitted exchanges followed by
the `missed` tail.  (The `ex_ind`/`ex_val` lists in the source are never
populated, so the final consolidation loop is a no-op and is omitted.) -/
def FlatBackground.sys_lci (fb : FlatBackground) (demand : List DmdExch)
    (threshold : ℚ) (count : Nat) (solver : Solver) :
    Except String (FlatBackground × List ExchDef) :=
  match fb.compute_bg_lci (sysAdTilde fb demand threshold count solver)
      threshold count solver with
  | .error e => .error e
  | .ok (fb1, bgx) =>
    .ok (fb1, fb1.generate_em_defs (sysClassified fb demand).node_ref
      (fun i => bgx i + sysBfTilde fb demand threshold count solver i)
      ++ (sysClassified fb demand).missed)

/-! ## Serialization (`write_to_file`, `_write_mat`, `_write_ordering`,
`from_matfile`)

The external `savemat`/`loadmat` (scipy) and `to_json`/`from_json`
(antelope_core) calls are modelled as faithful stores: writing produces
the in-memory payloads and reading consumes them unchanged (the `.tocsr()`
conversions on load change only the sparse storage layout, not the
values). -/

/-- The payload of the `.mat` file: `Af`, `Ad`, `Bf` always; `A`, `B` only
when `complete and self._complete`. -/
structure MatFileData where
  af : Mat
  ad : Mat
  bf : Mat
  ab : Option (Mat × Mat)

/-- One serialized `TermRef` 4-tuple `[flow_ref, direction, term_ref,
scc_id]`. -/
abbrev TermTuple := String × Direction × String × SccId

/-- `tuple(f)` on a `TermRef`. -/
def termRefToTuple (t : TermRef) : TermTuple :=
  (t.flow_ref, t.direction, t.term_ref, t.scc_id)

/-- `TermRef(*f)` from a serialized 4-tuple. -/
def termRefOfTuple (t : TermTuple) : TermRef :=
  ⟨t.1, t.2.1, t.2.2.1, t.2.2.2⟩

/-- The payload of the `.ordering.json.gz` file: the three tuple lists. -/
structure OrderingData where
  foreground : List TermTuple
  background : List TermTuple
  exterior : List TermTuple

/-- `_write_ordering`: serialize the three orderings as tuple lists. -/
def FlatBackground.write_ordering (fb : FlatBackground) : OrderingData :=
  ⟨fb.fg.map termRefToTuple, fb.bg.map termRefToTuple, fb.ex.map termRefToTuple⟩

/-- `_write_mat(filename, complete)`: the three foreground matrices, plus
`A`/`B` when requested and present. -/
def FlatBackground.write_mat (fb : FlatBackground) (complete : Bool) :
    MatFileData :=
  ⟨fb.af, fb.ad, fb.bf,
    if complete = true ∧ fb.complete = true then fb.lciDb else none⟩

/-- `from_matfile`: rebuild the `FlatBackground` from the two payloads via
`__init__` — orderings from the tuple lists, `lci_db` from the optional
`A`/`B` pair, `_lu` reset to `None`, `context_map` initially absent
(rebuilt lazily by `map_contexts`). -/
def FlatBackground.from_matfile (d : MatFileData) (ordr : OrderingData) :
    FlatBackground :=
  { fg := ordr.foreground.map termRefOfTuple
    bg := ordr.background.map termRefOfTuple
    ex := ordr.exterior.map termRefOfTuple
    af := d.af
    ad := d.ad
    bf := d.bf
    lciDb := d.ab
    lu := none
    contextMap := fun _ => none }

/-- `ORDERING_SUFFIX = '.ordering.json.gz'`. -/
def ORDERING_SUFFIX : List Char := ".ordering.json.gz".toList

/-- `SUPPORTED_FILETYPES = ('.mat',)`. -/
def SUPPORTED_FILETYPES : List (List Char) := [".mat".toList]

/-- Index of the last occurrence of a character (python `str.rfind`),
`none` when absent. -/
def lastIdx (c : Char) (s : List Char) : Option Nat :=
  s.enum.foldl (fun acc p => if p.2 = c then some p.1 else acc) none

/-- The extension component of `os.path.splitext` (posix rules): the
suffix from the last dot, provided that dot sits strictly after the last
path separator and at least one non-dot character of the basename
precedes it; otherwise empty. -/
def splitextExt (s : List Char) : List Char :=
  let start := match lastIdx '/' s with
    | some i => i + 1
    | none => 0
  match lastIdx '.' s with
  | none => []
  | some d =>
    if ((s.drop start).take (d - start)).any (fun ch => ch ≠ '.') then
      s.drop d
    else []

/-- The suffix-stripping step opening `write_to_file`: a filename ending
in the ordering suffix has it removed. -/
def stripOrderingSuffix (filename : List Char) : List Char :=
  if ORDERING_SUFFIX.isSuffixOf filename then
    filename.take (filename.length - ORDERING_SUFFIX.length)
  else filename

/-- `write_to_file(filename, complete)`: strip a trailing ordering
suffix, check the extension against `SUPPORTED_FILETYPES`
(`ValueError('Unsupported file type ...')` otherwise, before any file is
written), then write the `.mat` payload and the ordering payload. -/
def FlatBackground.write_to_file (fb : FlatBackground) (filename : List Char)
    (complete : Bool) : Except String (MatFileData × OrderingData) :=
  let filetype := splitextExt (stripOrderingSuffix filename)
  if filetype ∉ SUPPORTED_FILETYPES then .error "Unsupported file type"
  else if filetype = ".mat".toList then
    .ok (fb.write_mat complete, fb.write_ordering)
  else .error "Unsupported file type"

/-! ## Implementation layer: the `emissions` / `cutoffs` split

`TarjanBackgroundImplementation._direct_exchanges` wraps each `ExchDef`
into an `ExchangeValue` carrying the same termination and value, so the
filters below act directly on the `ExchDef` stream of
`FlatBackground.exterior`. -/

/-- `isinstance(x.termination, Context) and x.termination.elementary`. -/
def elemFilter (x : ExchDef) : Bool :=
  match x.term with
  | .canon c => c.elementary
  | _ => false

/-- `emissions(process, ref_flow)`: the exterior exchanges whose
termination is an elementary context. -/
def FlatBackground.emissions (fb : FlatBackground) (process ref_flow : String) :
    Except String (List ExchDef) :=
  (fb.exterior process ref_flow).map (fun l => l.filter elemFilter)

/-- `cutoffs(process, ref_flow)`: the exterior exchanges skipped by
`emissions` — non-elementary contexts and non-`Context` (null)
terminations. -/
def FlatBackground.cutoffs (fb : FlatBackground) (process ref_flow : String) :
    Except String (List ExchDef) :=
  (fb.exterior process ref_flow).map (fun l => l.filter (fun x => !(elemFilter x)))

/-! ## Spec-side characterizations

These definitions follow the specification's words (truncated power
series, stopping rule, declarative `missed` classification, frame
relation); the theorems below compare the code-derived definitions
against them. -/

/-- Spec-side: the power term `a^k · y`. -/
def powTerm (a : Mat) (dim : Nat) (y : Vec) : Nat → Vec
| 0 => y
| k + 1 => mulVec a dim (powTerm a dim y k)

/-- Spec-side: the truncated power series `Σ_{k<K} a^k y`. -/
def psum (a : Mat) (dim : Nat) (y : Vec) : Nat → Vec
| 0 => zeroVec
| K + 1 => fun i => psum a dim y K i + powTerm a dim y K i

/-- Spec-side: the running total after `j` increments,
`Σ_{i=1..j} ‖a^i y‖₁`. -/
def runTot (a : Mat) (dim : Nat) (y : Vec) : Nat → ℚ
| 0 => 0
| j + 1 => runTot a dim y j + l1norm dim (powTerm a dim y (j + 1))

/-- Spec-side: the stopping rule tested during (0-based) iteration `j`:
the increment's L1 norm is exactly zero, or its ratio to the running
total (increment included) falls below the threshold. -/
def stopCond (a : Mat) (dim : Nat) (y : Vec) (thr : ℚ) (j : Nat) : Prop :=
  l1norm dim (powTerm a dim y (j + 1)) = 0 ∨
    l1norm dim (powTerm a dim y (j + 1)) / runTot a dim y (j + 1) < thr

instance (a dim y thr j) : Decidable (stopCond a dim y thr j) := by
  unfold stopCond; infer_instance

/-- Spec-side: the declarative `missed` classification of one `sys_lci`
demand exchange — context-terminated and unterminated exchanges pass
through, and process terminations resolved by neither index map pass
through; resolvable terminations are consumed numerically. -/
def missedOf (fb : FlatBackground) (x : DmdExch) : Option ExchDef :=
  match x.dterm with
  | .context c => some ⟨some x.process, x.flow, x.direction, .ctxPath c, x.value⟩
  | .null => some ⟨some x.process, x.flow, x.direction, .null, x.value⟩
  | .termRef t =>
    if ((fb.fgIndex (t, x.flow)).isSome || (fb.bgIndex (t, x.flow)).isSome) then
      none
    else
      some ⟨some x.process, x.flow, x.direction, .refT t, x.value⟩

/-- Spec-side frame relation: two states agreeing on every field except
(possibly) the LU cache. -/
def sameButLu (fb fb' : FlatBackground) : Prop :=
  fb'.fg = fb.fg ∧ fb'.bg = fb.bg ∧ fb'.ex = fb.ex ∧ fb'.af = fb.af ∧
    fb'.ad = fb.ad ∧ fb'.bf = fb.bf ∧ fb'.lciDb = fb.lciDb ∧
    fb'.contextMap = fb.contextMap

/-! ## Concrete fixtures (used by witnesses and counterexamples) -/

/-- Fixture foreground product flow `(P1, f1)`. -/
def tr1 : TermRef := ⟨"f1", .Output, "P1", .sentinel⟩

/-- Fixture background product flow `(P2, f2)`. -/
def tr2 : TermRef := ⟨"f2", .Output, "P2", .sentinel⟩

/-- Fixture exterior ref (`co2` to air, stored direction `Input` =
complement of the emission sense). -/
def trx : TermRef := ⟨"co2", .Input, "air", .sentinel⟩

/-- The all-zero matrix. -/
def zeroMat : Mat := fun _ _ => 0

/-- 1×1 fixture matrix holding `1`. -/
def mat1 : Mat := fun i j => if i = 0 ∧ j = 0 then 1 else 0

/-- 1×1 fixture matrix holding `-2` (a negative stored coefficient). -/
def matNeg2 : Mat := fun i j => if i = 0 ∧ j = 0 then -2 else 0

/-- Fixture context map: the serialized key `"air"` resolves to an
elementary context. -/
def cmap0 : String → Option Ctx :=
  fun s => if s = "air" then some ⟨["air"], true⟩ else none

/-- Fixture flat background without an lci database (`lci_db=None`):
one foreground flow, one background flow, one exterior flow,
`Ad = [1]`, `Bf = [-2]`. -/
def fb0 : FlatBackground :=
  ⟨[tr1], [tr2], [trx], zeroMat, mat1, matNeg2, none, none, cmap0⟩

/-- Fixture flat background with a complete lci database
(`A = 0`, `B = [1]`). -/
def fbC : FlatBackground :=
  ⟨[tr1], [tr2], [trx], zeroMat, mat1, matNeg2, some (zeroMat, mat1), none, cmap0⟩

/-! ## Shared helper lemmas -/

/-- The direction complement is an involution. -/
lemma comp_dir_comp_dir (d : Direction) : comp_dir (comp_dir d) = d := by
  cases d <;> rfl

/-- Serializing then deserializing one `TermRef` tuple is the identity. -/
lemma ofTuple_toTuple (t : TermRef) : termRefOfTuple (termRefToTuple t) = t := rfl

/-- Serializing then deserializing a `TermRef` list is the identity. -/
lemma map_ofTuple_toTuple (l : List TermRef) :
    List.map (termRefOfTuple ∘ termRefToTuple) l = l := by
  induction l with
  | nil => rfl
  | cons a l ih => simp [ih, Function.comp, ofTuple_toTuple]

/-- The nonzero-index enumeration of a sparse slice is strictly
increasing. -/
lemma nonzeroIdx_sorted (dim : Nat) (v : Vec) :
    List.Sorted (· < ·) (nonzeroIdx dim v) :=
  (List.pairwise_lt_range dim).filter _

/-- Everything in the nonzero-index enumeration is in range. -/
lemma nonzeroIdx_lt (dim : Nat) (v : Vec) :
    ∀ i ∈ nonzeroIdx dim v, i < dim := by
  intro i hi
  have := List.mem_range.mp (List.mem_of_mem_filter hi)
  exact this

/-! ## C8 — `index_of` resolution order -/

/-- C8: for every `(term_ref, flow_ref)` key, `index_of` returns the
foreground index when the key is in the foreground index map, otherwise
the background index when it is in the background index map, and raises
the unknown-termination error exactly when the key is absent from
both. -/
theorem C8_index_of_resolution (fb : FlatBackground) (t f : String) :
    (∀ i, fb.fgIndex (t, f) = some i → fb.index_of t f = .ok i) ∧
    (fb.fgIndex (t, f) = none →
      ∀ j, fb.bgIndex (t, f) = some j → fb.index_of t f = .ok j) ∧
    (fb.index_of t f = .error "Unknown termination" ↔
      fb.fgIndex (t, f) = none ∧ fb.bgIndex (t, f) = none) := by
  refine ⟨?_, ?_, ?_, ?_⟩
  · intro i h
    simp [FlatBackground.index_of, h]
  · intro h j hj
    simp [FlatBackground.index_of, h, hj]
  · intro h
    rcases h1 : fb.fgIndex (t, f) with _ | i
    · rcases h2 : fb.bgIndex (t, f) with _ | j
      · first
        | exact ⟨h1, h2⟩
        | exact ⟨rfl, rfl⟩
      · rw [FlatBackground.index_of] at h
        simp [h1, h2] at h
    · rw [FlatBackground.index_of] at h
      simp [h1] at h
  · rintro ⟨h1, h2⟩
    simp [FlatBackground.index_of, h1, h2]

/-- Witness for C8 at the fixture: the foreground pair resolves to its
foreground index. -/
theorem C8_index_of_resolution_witness :
    fb0.fgIndex ("P1", "f1") = some 0 ∧ fb0.index_of "P1" "f1" = .ok 0 :=
  ⟨by decide, (C8_index_of_resolution fb0 "P1" "f1").1 0 (by decide)⟩

/-! ## C10 — `emissions` / `cutoffs` partition the exterior -/

/-- C10: the exchanges yielded by `emissions()` and `cutoffs()` partition
the exchanges yielded by the exterior query: `emissions` yields exactly
those whose termination is a `Context` with `elementary` true, `cutoffs`
yields exactly the rest (non-elementary contexts and null terminations),
and each exterior exchange lands in exactly one of the two. -/
theorem C10_emissions_cutoffs_partition (fb : FlatBackground) (p f : String)
    (L : List ExchDef) (h : fb.exterior p f = .ok L) :
    fb.emissions p f = .ok (L.filter elemFilter) ∧
    fb.cutoffs p f = .ok (L.filter (fun x => !(elemFilter x))) ∧
    ∀ x ∈ L,
      (x ∈ L.filter elemFilter ∧ x ∉ L.filter (fun x => !(elemFilter x))) ∨
      (x ∉ L.filter elemFilter ∧ x ∈ L.filter (fun x => !(elemFilter x))) := by
  refine ⟨by simp [FlatBackground.emissions, h, Except.map],
          by simp [FlatBackground.cutoffs, h, Except.map], ?_⟩
  intro x hx
  by_cases hE : elemFilter x = true
  · left
    refine ⟨List.mem_filter.mpr ⟨hx, hE⟩, ?_⟩
    simp [List.mem_filter, hE]
  · right
    rw [Bool.not_eq_true] at hE
    refine ⟨?_, List.mem_filter.mpr ⟨hx, by simp [hE]⟩⟩
    simp [List.mem_filter, hE]

/-- Witness for C10 at the fixture: the exterior query succeeds and its
single elementary emission is kept by `emissions`. -/
theorem C10_emissions_cutoffs_partition_witness :
    fb0.exterior "P1" "f1" =
      .ok [⟨some "P1", "co2", .Output, .canon ⟨["air"], true⟩, -2⟩] ∧
    fb0.emissions "P1" "f1" =
      .ok [⟨some "P1", "co2", .Output, .canon ⟨["air"], true⟩, -2⟩] := by
  have h : fb0.exterior "P1" "f1" =
      .ok [⟨some "P1", "co2", .Output, .canon ⟨["air"], true⟩, -2⟩] := by
    simp +decide [FlatBackground.exterior, FlatBackground.is_in_background,
      FlatBackground.bgIndex, FlatBackground.fgIndex, buildIndex, fb0, tr1, tr2,
      trx, termKey, FlatBackground.generate_em_defs, emDefAt, nonzeroIdx,
      FlatBackground.mdim, mulVec, matNeg2, cmap0, List.range_succ, comp_dir]
  refine ⟨h, ?_⟩
  have h2 := (C10_emissions_cutoffs_partition fb0 "P1" "f1" _ h).1
  simpa [elemFilter] using h2

/-! ## C7 — `write_to_file` filetype gate -/

/-- C7: for every filename whose extension (after stripping a trailing
`.ordering.json.gz` suffix) is not in the accepted set (`.mat`,),
`write_to_file` fails with the unsupported-filetype error and writes
neither payload; for a `.mat` extension it writes both the matrix payload
and the ordering payload. -/
theorem C7_write_to_file_filetype (fb : FlatBackground) (filename : List Char)
    (complete : Bool) :
    (splitextExt (stripOrderingSuffix filename) ≠ ".mat".toList →
      fb.write_to_file filename complete = .error "Unsupported file type") ∧
    (splitextExt (stripOrderingSuffix filename) = ".mat".toList →
      fb.write_to_file filename complete =
        .ok (fb.write_mat complete, fb.write_ordering)) := by
  constructor
  · intro h
    simp only [FlatBackground.write_to_file, SUPPORTED_FILETYPES]
    rw [if_pos (by simpa using h)]
  · intro h
    simp [FlatBackground.write_to_file, SUPPORTED_FILETYPES, h]

/-- Witness for C7: a `.txt` filename is rejected, a `.mat` filename
produces both payloads. -/
theorem C7_write_to_file_filetype_witness :
    fb0.write_to_file ("db.txt".toList) true = .error "Unsupported file type" ∧
    fb0.write_to_file ("db.mat".toList) true =
      .ok (fb0.write_mat true, fb0.write_ordering) :=
  ⟨(C7_write_to_file_filetype fb0 ("db.txt".toList) true).1 (by decide),
   (C7_write_to_file_filetype fb0 ("db.mat".toList) true).2 (by decide)⟩

/-! ## C5 — serialization round-trip -/

/-- C5: writing a complete `FlatBackground` to a `.mat` file (with
`complete=true`) and reading the payload pair back yields a
`FlatBackground` whose foreground, background, and exterior orderings and
whose `Af`, `Ad`, `Bf`, `A`, `B` matrices are identical to the
originals. -/
theorem C5_serialization_roundtrip (fb : FlatBackground) (db : Mat × Mat)
    (h : fb.lciDb = some db) (filename : List Char) (md : MatFileData)
    (od : OrderingData) (hw : fb.write_to_file filename true = .ok (md, od)) :
    (FlatBackground.from_matfile md od).fg = fb.fg ∧
    (FlatBackground.from_matfile md od).bg = fb.bg ∧
    (FlatBackground.from_matfile md od).ex = fb.ex ∧
    (FlatBackground.from_matfile md od).af = fb.af ∧
    (FlatBackground.from_matfile md od).ad = fb.ad ∧
    (FlatBackground.from_matfile md od).bf = fb.bf ∧
    (FlatBackground.from_matfile md od).lciDb = some db := by
  have hpair : fb.write_mat true = md ∧ fb.write_ordering = od := by
    rw [FlatBackground.write_to_file] at hw
    by_cases c1 : splitextExt (stripOrderingSuffix filename) ∈ SUPPORTED_FILETYPES
    · rw [if_neg (by simpa using c1)] at hw
      by_cases c2 : splitextExt (stripOrderingSuffix filename) = ".mat".toList
      · rw [if_pos c2] at hw
        have := Except.ok.inj hw
        exact ⟨congrArg Prod.fst this, congrArg Prod.snd this⟩
      · rw [if_neg c2] at hw
        cases hw
    · rw [if_pos (by simpa using c1)] at hw
      cases hw
  obtain ⟨hmd, hod⟩ := hpair
  subst hmd
  subst hod
  refine ⟨?_, ?_, ?_, rfl, rfl, rfl, ?_⟩
  · simp [FlatBackground.from_matfile, FlatBackground.write_ordering,
      map_ofTuple_toTuple]
  · simp [FlatBackground.from_matfile, FlatBackground.write_ordering,
      map_ofTuple_toTuple]
  · simp [FlatBackground.from_matfile, FlatBackground.write_ordering,
      map_ofTuple_toTuple]
  · simp [FlatBackground.from_matfile, FlatBackground.write_mat,
      FlatBackground.complete, h]

/-- Witness for C5: the complete fixture written to `db.mat` reads back
with identical orderings and matrices. -/
theorem C5_serialization_roundtrip_witness :
    fbC.lciDb = some (zeroMat, mat1) ∧
    fbC.write_to_file ("db.mat".toList) true =
      .ok (fbC.write_mat true, fbC.write_ordering) ∧
    (FlatBackground.from_matfile (fbC.write_mat true) fbC.write_ordering).fg = fbC.fg ∧
    (FlatBackground.from_matfile (fbC.write_mat true) fbC.write_ordering).lciDb =
      some (zeroMat, mat1) := by
  have hw : fbC.write_to_file ("db.mat".toList) true =
      .ok (fbC.write_mat true, fbC.write_ordering) := by
    simp +decide [FlatBackground.write_to_file, SUPPORTED_FILETYPES]
  have h5 := C5_serialization_roundtrip fbC (zeroMat, mat1) rfl ("db.mat".toList)
    (fbC.write_mat true) fbC.write_ordering hw
  exact ⟨rfl, hw, h5.1, h5.2.2.2.2.2.2⟩

/-! ## C2 — the direction/sign rule at emit time

The claimed rule holds for the interior emitters (the shared
`_generate_exch_defs` body, used by `foreground`, `dependencies` and
`ad`), but NOT for the `bf` column: `bf` emits through
`_generate_em_defs`, which keeps the stored value (sign included) and
always uses the complement of the stored direction. -/

/-- C2 counterexample: on the fixture, the `bf` query emits the stored
`Bf` coefficient `-2` as-is — the yielded `ExchDef` carries the negative
value, not the positive magnitude the claim requires for a
negative-coefficient `bf` column entry. -/
theorem C2_counterexample :
    fb0.bf 0 0 = -2 ∧ fb0.bf 0 0 < 0 ∧
    fb0.bfQuery "P1" "f1" (1 / 100000000) 1 .iterative =
      .ok [⟨some "P1", "co2", .Output, .canon ⟨["air"], true⟩, -2⟩] ∧
    ¬ ((-2 : ℚ) = ratAbs (fb0.bf 0 0)) := by
  refine ⟨by norm_num [fb0, matNeg2], by norm_num [fb0, matNeg2], ?_, ?_⟩
  · simp +decide [FlatBackground.bfQuery, FlatBackground.is_in_background,
      FlatBackground.bgIndex, FlatBackground.fgIndex, buildIndex, fb0, tr1, tr2,
      trx, termKey, FlatBackground.generate_em_defs, emDefAt, nonzeroIdx,
      FlatBackground.mdim, FlatBackground.pdim, FlatBackground.xTildeAt,
      iterate_a_matrix, iterLoop, mulVec, l1norm, ratAbs, zeroMat, matNeg2,
      mat1, cmap0, List.range_succ, comp_dir, unit_column_vector, zeroVec]
  · norm_num [fb0, matNeg2, ratAbs]

/-- C2 amended: for the interior emitters (`foreground`, `dependencies`,
`ad` — everything going through the `_generate_exch_defs` rule), a
negative stored coefficient yields the positive magnitude and the
direction obtained by inverting the direction a positive coefficient
would get (`comp_dir ∘ comp_dir` of the stored direction, i.e. the stored
direction itself), while a non-negative coefficient yields the complement
of the stored direction; the exterior emitter used by `bf` instead keeps
the stored value unchanged (sign included) and always yields the
complement of the stored direction. -/
theorem C2_emit_rule_amended :
    (∀ (node : Option String) (term : TermRef) (dat : ℚ), dat < 0 →
      exchDefOfEntry node term dat =
        ⟨node, term.flow_ref, comp_dir (comp_dir term.direction),
          .refT term.term_ref, -dat⟩ ∧
      0 < (exchDefOfEntry node term dat).value) ∧
    (∀ (node : Option String) (term : TermRef) (dat : ℚ), 0 ≤ dat →
      exchDefOfEntry node term dat =
        ⟨node, term.flow_ref, comp_dir term.direction,
          .refT term.term_ref, dat⟩) ∧
    (∀ (node : Option String) (v : Vec) (dim : Nat) (enum : List TermRef)
      (d : ExchDef), d ∈ generate_exch_defs node v dim enum →
      ∃ i, i < dim ∧ v i ≠ 0 ∧
        d = exchDefOfEntry node (enum.getD i default) (v i)) ∧
    (∀ (fb : FlatBackground) (node : Option String) (v : Vec) (d : ExchDef),
      d ∈ fb.generate_em_defs node v →
      ∃ i, i < fb.mdim ∧ v i ≠ 0 ∧ d.value = v i ∧
        d.direction = comp_dir (fb.ex.getD i default).direction) := by
  refine ⟨?_, ?_, ?_, ?_⟩
  · intro node term dat hneg
    constructor
    · rw [exchDefOfEntry, if_pos hneg, comp_dir_comp_dir]
    · rw [exchDefOfEntry, if_pos hneg]
      simpa using hneg
  · intro node term dat hpos
    rw [exchDefOfEntry, if_neg (not_lt.mpr hpos)]
  · intro node v dim enum d hd
    rw [generate_exch_defs] at hd
    obtain ⟨i, hi, hdef⟩ := List.mem_map.mp hd
    refine ⟨i, ?_, ?_, hdef.symm⟩
    · exact nonzeroIdx_lt dim v i hi
    · have := List.mem_filter.mp hi
      simpa using this.2
  · intro fb node v d hd
    rw [FlatBackground.generate_em_defs] at hd
    obtain ⟨i, hi, hdef⟩ := List.mem_map.mp hd
    refine ⟨i, nonzeroIdx_lt fb.mdim v i hi, ?_, ?_, ?_⟩
    · have := List.mem_filter.mp hi
      simpa using this.2
    · rw [← hdef]; rfl
    · rw [← hdef]; rfl

/-- Witness for C2 amended: a concrete negative interior coefficient is
emitted with positive magnitude and the inverted-complement (= stored)
direction. -/
theorem C2_emit_rule_amended_witness :
    ((-2 : ℚ) < 0) ∧
    exchDefOfEntry none tr1 (-2) =
      ⟨none, "f1", comp_dir (comp_dir Direction.Output), .refT "P1", -(-2)⟩ :=
  ⟨by norm_num, (C2_emit_rule_amended.1 none tr1 (-2) (by norm_num)).1⟩

/-! ## C1 — `lci` with an absent lci database -/

/-- C1: with the optional `A`/`B` matrices absent, `lci` on a pair
resolved to a background index fails with the `NoLciDatabase` error and
yields nothing, while on a pair resolved to a foreground index it does
not fail and returns exactly the direct foreground emissions
`bf̃ = Bf · x̃`. -/
theorem C1_lci_database_requirement (fb : FlatBackground) (p f : String)
    (thr : ℚ) (count : Nat) (solver : Solver) :
    (fb.lciDb = none → fb.is_in_background p f = true →
      fb.lci p f thr count solver = .error "NoLciDatabase") ∧
    (fb.lciDb = none → fb.bgIndex (p, f) = none →
      ∀ i, fb.fgIndex (p, f) = some i →
        fb.lci p f thr count solver =
          .ok (fb, fb.generate_em_defs (some p)
            (mulVec fb.bf fb.pdim (fb.xTildeAt i thr count solver)))) := by
  constructor
  · intro h hbg
    rw [FlatBackground.lci, FlatBackground.compute_lci]
    rw [if_pos hbg]
    rw [if_pos (by simp [FlatBackground.complete, h])]
  · intro h hbg i hfg
    rw [FlatBackground.lci, FlatBackground.compute_lci]
    rw [if_neg (by simp [FlatBackground.is_in_background, hbg])]
    rw [hfg]
    simp only []
    rw [if_neg (by simp [FlatBackground.complete, h])]

/-- Witness for C1 at the fixture (no lci database): the background pair
errors, the foreground pair returns the `Bf · x̃` emissions. -/
theorem C1_lci_database_requirement_witness :
    fb0.lciDb = none ∧
    fb0.is_in_background "P2" "f2" = true ∧
    fb0.lci "P2" "f2" 0 1 .iterative = .error "NoLciDatabase" ∧
    fb0.lci "P1" "f1" 0 1 .iterative =
      .ok (fb0, fb0.generate_em_defs (some "P1")
        (mulVec fb0.bf fb0.pdim (fb0.xTildeAt 0 0 1 .iterative))) := by
  refine ⟨rfl, by decide, ?_, ?_⟩
  · exact (C1_lci_database_requirement fb0 "P2" "f2" 0 1 .iterative).1 rfl (by decide)
  · exact (C1_lci_database_requirement fb0 "P1" "f1" 0 1 .iterative).2 rfl
      (by decide) 0 (by decide)

/-! ## C9 — queries that dereference the absent `A`/`B` matrices -/

/-- An error accumulator is absorbing for the `emitters` scan. -/
lemma emitters_foldl_error (fb : FlatBackground) (fr : String)
    (d : Option Direction) (c : Option Ctx) (l : List Nat) (e : String) :
    l.foldl (emittersStep fb fr d c) (.error e) = .error e := by
  induction l with
  | nil => rfl
  | cons a l ih => simpa [emittersStep] using ih

/-- With no matching exterior ref in sight, the `emitters` scan leaves
its accumulator untouched. -/
lemma emitters_foldl_nomatch (fb : FlatBackground) (fr : String)
    (d : Option Direction) (c : Option Ctx) (l : List Nat)
    (h : ∀ i ∈ l, exMatches fb fr d c (fb.ex.getD i default) = false)
    (acc : List TermRef) :
    l.foldl (emittersStep fb fr d c) (.ok acc) = .ok acc := by
  induction l generalizing acc with
  | nil => rfl
  | cons a l ih =>
    rw [List.foldl_cons]
    have ha := h a (List.mem_cons_self a l)
    have hstep : emittersStep fb fr d c (.ok acc) a = .ok acc := by
      simp only [emittersStep]
      rw [if_neg (by rw [Bool.not_eq_true]; exact ha)]
    rw [hstep]
    exact ih (fun i hi => h i (List.mem_cons_of_mem a hi)) acc

/-- With `lci_db` absent, the first matching exterior ref turns the
`emitters` scan into the absorbed `TypeError`. -/
lemma emitters_foldl_match_nodb (fb : FlatBackground) (fr : String)
    (d : Option Direction) (c : Option Ctx) (hdb : fb.lciDb = none)
    (l : List Nat) (acc : List TermRef)
    (h : ∃ i ∈ l, exMatches fb fr d c (fb.ex.getD i default) = true) :
    l.foldl (emittersStep fb fr d c) (.ok acc) = .error "TypeError" := by
  induction l generalizing acc with
  | nil => simp at h
  | cons a l ih =>
    rw [List.foldl_cons]
    by_cases ha : exMatches fb fr d c (fb.ex.getD a default) = true
    · have hstep : emittersStep fb fr d c (.ok acc) a = .error "TypeError" := by
        simp only [emittersStep]
        rw [if_pos ha, hdb]
      rw [hstep]
      exact emitters_foldl_error fb fr d c l "TypeError"
    · have hstep : emittersStep fb fr d c (.ok acc) a = .ok acc := by
        simp only [emittersStep]
        rw [if_neg ha]
      rw [hstep]
      obtain ⟨i, hi, hm⟩ := h
      rcases List.mem_cons.mp hi with rfl | hi'
      · exact absurd hm ha
      · exact ih acc ⟨i, hi', hm⟩

/-- C9: on a `FlatBackground` built without the optional `A`/`B`
matrices, `emitters` fails with the python `TypeError` (dereferencing the
absent `B`) as soon as its predicate matches at least one exterior ref,
returns empty without failing when nothing matches, and `consumers` on a
background product flow likewise fails by dereferencing the absent `A`
instead of returning the foreground-only row. -/
theorem C9_absent_db_dereference (fb : FlatBackground) (flow_ref : String)
    (dOpt : Option Direction) (cOpt : Option Ctx) (p f : String)
    (h : fb.lciDb = none) :
    ((∃ i, i < fb.mdim ∧
        exMatches fb flow_ref dOpt cOpt (fb.ex.getD i default) = true) →
      fb.emitters flow_ref dOpt cOpt = .error "TypeError") ∧
    ((∀ i, i < fb.mdim →
        exMatches fb flow_ref dOpt cOpt (fb.ex.getD i default) = false) →
      fb.emitters flow_ref dOpt cOpt = .ok []) ∧
    (fb.is_in_background p f = true → fb.consumers p f = .error "TypeError") := by
  refine ⟨?_, ?_, ?_⟩
  · rintro ⟨i, hi, hm⟩
    rw [FlatBackground.emitters]
    exact emitters_foldl_match_nodb fb flow_ref dOpt cOpt h _ []
      ⟨i, List.mem_range.mpr hi, hm⟩
  · intro hnone
    rw [FlatBackground.emitters]
    exact emitters_foldl_nomatch fb flow_ref dOpt cOpt _
      (fun i hi => hnone i (List.mem_range.mp hi)) []
  · intro hbg
    rw [FlatBackground.consumers]
    obtain ⟨j, hj⟩ := Option.isSome_iff_exists.mp hbg
    have hidx : ∃ k, fb.index_of p f = .ok k := by
      rw [FlatBackground.index_of]
      rcases h1 : fb.fgIndex (p, f) with _ | i
      · rw [hj]
        exact ⟨j, rfl⟩
      · exact ⟨i, rfl⟩
    obtain ⟨k, hk⟩ := hidx
    rw [hk]
    simp only []
    rw [if_pos hbg, h]

/-- Witness for C9 at the fixture: the `co2` predicate matches the single
exterior ref and `emitters` fails; a fresh flow matches nothing and
returns empty; `consumers` on the background flow fails. -/
theorem C9_absent_db_dereference_witness :
    fb0.lciDb = none ∧
    fb0.emitters "co2" none none = .error "TypeError" ∧
    fb0.emitters "zzz" none none = .ok [] ∧
    fb0.consumers "P2" "f2" = .error "TypeError" := by
  refine ⟨rfl, ?_, ?_, ?_⟩
  · exact (C9_absent_db_dereference fb0 "co2" none none "P2" "f2" rfl).1
      ⟨0, by decide, by decide⟩
  · refine (C9_absent_db_dereference fb0 "zzz" none none "P2" "f2" rfl).2.1 ?_
    intro i hi
    have h1 : i = 0 := by
      have h2 : i < 1 := by simpa [FlatBackground.mdim, fb0] using hi
      omega
    subst h1
    decide
  · exact (C9_absent_db_dereference fb0 "co2" none none "P2" "f2" rfl).2.2 (by decide)


/-! ## C6 — the LU cache is the only mutable field -/

/-- `sameButLu` is reflexive. -/
lemma sameButLu_refl (fb : FlatBackground) : sameButLu fb fb :=
  ⟨rfl, rfl, rfl, rfl, rfl, rfl, rfl, rfl⟩

/-- `_compute_bg_lci` with `lci_db` absent fails on the `None`
dereference. -/
lemma compute_bg_lci_none (fb : FlatBackground) (adv : Vec) (thr : ℚ)
    (count : Nat) (solver : Solver) (h : fb.lciDb = none) :
    fb.compute_bg_lci adv thr count solver = .error "TypeError" := by
  rw [FlatBackground.compute_bg_lci, h]

/-- Unfolding `_compute_bg_lci` once the lci database is known. -/
lemma compute_bg_lci_some (fb : FlatBackground) (adv : Vec) (thr : ℚ)
    (count : Nat) (solver : Solver) (A B : Mat) (h : fb.lciDb = some (A, B)) :
    fb.compute_bg_lci adv thr count solver =
      (let fb1 := if solver = .factorize ∧ fb.lu.isNone = true
          then { fb with lu := some (imatOf A) } else fb
       let bx := match fb1.lu with
         | none => iterate_a_matrix A fb.ndim adv thr count solver
         | some l => mulVec (matInv fb.ndim l) fb.ndim adv
       Except.ok (fb1, mulVec B fb.ndim bx)) := by
  rw [FlatBackground.compute_bg_lci, h]

/-- `_compute_bg_lci` under `solver='factorize'` with an empty cache:
creates the factorization of `I − A`, stores it, and solves with it. -/
lemma compute_bg_lci_create (fb : FlatBackground) (adv : Vec) (thr : ℚ)
    (count : Nat) (solver : Solver) (A B : Mat) (h : fb.lciDb = some (A, B))
    (hc : solver = .factorize ∧ fb.lu.isNone = true) :
    fb.compute_bg_lci adv thr count solver =
      .ok ({ fb with lu := some (imatOf A) },
        mulVec B fb.ndim (mulVec (matInv fb.ndim (imatOf A)) fb.ndim adv)) := by
  rw [compute_bg_lci_some fb adv thr count solver A B h, if_pos hc]

/-- `_compute_bg_lci` with a populated cache: the cache is used,
whatever the solver, and the state is unchanged. -/
lemma compute_bg_lci_cached (fb : FlatBackground) (adv : Vec) (thr : ℚ)
    (count : Nat) (solver : Solver) (A B : Mat) (db : fb.lciDb = some (A, B))
    (l : Mat) (hl : fb.lu = some l) :
    fb.compute_bg_lci adv thr count solver =
      .ok (fb, mulVec B fb.ndim (mulVec (matInv fb.ndim l) fb.ndim adv)) := by
  rw [compute_bg_lci_some fb adv thr count solver A B db,
    if_neg (by simp [hl])]
  show (Except.ok (fb, mulVec B fb.ndim
      (match fb.lu with
       | none => iterate_a_matrix A fb.ndim adv thr count solver
       | some l => mulVec (matInv fb.ndim l) fb.ndim adv)) :
    Except String (FlatBackground × Vec)) = _
  rw [hl]

/-- `_compute_bg_lci` with an empty cache and any solver other than
`factorize`: the iterative path, state unchanged. -/
lemma compute_bg_lci_iter (fb : FlatBackground) (adv : Vec) (thr : ℚ)
    (count : Nat) (solver : Solver) (A B : Mat) (db : fb.lciDb = some (A, B))
    (hl : fb.lu = none) (hs : solver ≠ .factorize) :
    fb.compute_bg_lci adv thr count solver =
      .ok (fb, mulVec B fb.ndim (iterate_a_matrix A fb.ndim adv thr count solver)) := by
  rw [compute_bg_lci_some fb adv thr count solver A B db,
    if_neg (by simp [hs])]
  show (Except.ok (fb, mulVec B fb.ndim
      (match fb.lu with
       | none => iterate_a_matrix A fb.ndim adv thr count solver
       | some l => mulVec (matInv fb.ndim l) fb.ndim adv)) :
    Except String (FlatBackground × Vec)) = _
  rw [hl]

/-- `_compute_bg_lci` only ever touches the `_lu` field: every successful
call returns a state agreeing with the input on all other fields, and the
`_lu` field either survives unchanged or is created (under
`solver='factorize'` with an empty cache) as the factorization of
`I − A`. -/
lemma compute_bg_lci_frame (fb : FlatBackground) (adv : Vec) (thr : ℚ)
    (count : Nat) (solver : Solver) (fb' : FlatBackground) (bx : Vec)
    (h : fb.compute_bg_lci adv thr count solver = .ok (fb', bx)) :
    sameButLu fb fb' ∧
    (fb'.lu = fb.lu ∨
      (solver = .factorize ∧ fb.lu = none ∧
        ∃ A B, fb.lciDb = some (A, B) ∧ fb'.lu = some (imatOf A))) := by
  rcases hdb : fb.lciDb with _ | ⟨A, B⟩
  · rw [compute_bg_lci_none fb adv thr count solver hdb] at h
    cases h
  · rcases hl : fb.lu with _ | l
    · by_cases hs : solver = .factorize
      · rw [compute_bg_lci_create fb adv thr count solver A B hdb
          ⟨hs, by simp [hl]⟩] at h
        have hfb : { fb with lu := some (imatOf A) } = fb' :=
          congrArg Prod.fst (Except.ok.inj h)
        rw [← hfb]
        exact ⟨⟨rfl, rfl, rfl, rfl, rfl, rfl, rfl, rfl⟩,
          Or.inr ⟨hs, rfl, A, B, rfl, rfl⟩⟩
      · rw [compute_bg_lci_iter fb adv thr count solver A B hdb hl hs] at h
        have hfb : fb = fb' := congrArg Prod.fst (Except.ok.inj h)
        rw [← hfb]
        exact ⟨sameButLu_refl fb, Or.inl hl⟩
    · rw [compute_bg_lci_cached fb adv thr count solver A B hdb l hl] at h
      have hfb : fb = fb' := congrArg Prod.fst (Except.ok.inj h)
      rw [← hfb]
      exact ⟨sameButLu_refl fb, Or.inl hl⟩

/-- Unfolding `_compute_lci` at a resolved foreground index. -/
lemma compute_lci_fg (fb : FlatBackground) (p f : String) (thr : ℚ)
    (count : Nat) (solver : Solver) (i : Nat)
    (hbg : ¬ fb.is_in_background p f = true) (hfg : fb.fgIndex (p, f) = some i) :
    fb.compute_lci p f thr count solver =
      (if fb.complete then
        match fb.compute_bg_lci
            (mulVec fb.ad fb.pdim (fb.xTildeAt i thr count solver)) thr count
            solver with
        | .error e => .error e
        | .ok (fb1, bx) =>
          .ok (fb1, fun k => bx k +
            mulVec fb.bf fb.pdim (fb.xTildeAt i thr count solver) k)
      else
        .ok (fb, mulVec fb.bf fb.pdim (fb.xTildeAt i thr count solver))) := by
  rw [FlatBackground.compute_lci, if_neg hbg, hfg]

/-- C6: after construction, the cached LU factorization is the only field
any numerical query mutates — it is created at most once (exactly by a
background solve under `solver='factorize'` with an empty cache), once
created it is used for every subsequent background solve, and `lci` /
`sys_lci` leave every other field unchanged. -/
theorem C6_lu_only_mutation (fb : FlatBackground) (adv : Vec) (thr : ℚ)
    (count : Nat) (solver : Solver) (A B : Mat) (p f : String)
    (demand : List DmdExch) (h : fb.lciDb = some (A, B)) :
    (∃ bx, fb.compute_bg_lci adv thr count solver =
      .ok ((if solver = .factorize ∧ fb.lu.isNone = true
            then { fb with lu := some (imatOf A) } else fb), bx)) ∧
    (∀ l, fb.lu = some l → fb.compute_bg_lci adv thr count solver =
      .ok (fb, mulVec B fb.ndim (mulVec (matInv fb.ndim l) fb.ndim adv))) ∧
    (∀ fb' bx, fb.compute_bg_lci adv thr count solver = .ok (fb', bx) →
      sameButLu fb fb' ∧
      (fb'.lu = fb.lu ∨
        (solver = .factorize ∧ fb.lu = none ∧ fb'.lu = some (imatOf A)))) ∧
    (∀ fb' v, fb.compute_lci p f thr count solver = .ok (fb', v) →
      sameButLu fb fb') ∧
    (∀ fb' out, fb.sys_lci demand thr count solver = .ok (fb', out) →
      sameButLu fb fb') := by
  refine ⟨?_, ?_, ?_, ?_, ?_⟩
  · by_cases hc : solver = .factorize ∧ fb.lu.isNone = true
    · rw [if_pos hc, compute_bg_lci_create fb adv thr count solver A B h hc]
      exact ⟨_, rfl⟩
    · rw [if_neg hc]
      rcases hl : fb.lu with _ | l
      · have hs : solver ≠ .factorize := by
          intro hsol
          exact hc ⟨hsol, by simp [hl]⟩
        rw [compute_bg_lci_iter fb adv thr count solver A B h hl hs]
        exact ⟨_, rfl⟩
      · rw [compute_bg_lci_cached fb adv thr count solver A B h l hl]
        exact ⟨_, rfl⟩
  · intro l hl
    exact compute_bg_lci_cached fb adv thr count solver A B h l hl
  · intro fb' bx hok
    obtain ⟨hsame, hlu⟩ := compute_bg_lci_frame fb adv thr count solver fb' bx hok
    refine ⟨hsame, ?_⟩
    rcases hlu with h1 | ⟨h1, h2, A', B', hdb', h3⟩
    · exact Or.inl h1
    · rw [h] at hdb'
      have hA : A = A' := congrArg (fun q => q.1) (Option.some.inj hdb')
      exact Or.inr ⟨h1, h2, by rw [h3, ← hA]⟩
  · intro fb' v hok
    by_cases hbg : fb.is_in_background p f
    · rw [FlatBackground.compute_lci, if_pos hbg] at hok
      by_cases hcomp : fb.complete = false
      · rw [if_pos hcomp] at hok
        cases hok
      · rw [if_neg hcomp] at hok
        exact (compute_bg_lci_frame fb _ thr count solver fb' v hok).1
    · rcases hfg : fb.fgIndex (p, f) with _ | i
      · rw [FlatBackground.compute_lci, if_neg hbg, hfg] at hok
        cases hok
      · rw [compute_lci_fg fb p f thr count solver i hbg hfg] at hok
        by_cases hcomp : fb.complete = true
        · rw [if_pos hcomp] at hok
          rcases hbl : fb.compute_bg_lci
              (mulVec fb.ad fb.pdim (fb.xTildeAt i thr count solver)) thr count
              solver with e | ⟨fb1, bx1⟩
          · rw [hbl] at hok
            cases hok
          · rw [hbl] at hok
            have hok2 : (Except.ok (fb1, fun k => bx1 k +
                mulVec fb.bf fb.pdim (fb.xTildeAt i thr count solver) k) :
                Except String (FlatBackground × Vec)) = .ok (fb', v) := hok
            have hfb : fb1 = fb' := congrArg Prod.fst (Except.ok.inj hok2)
            rw [← hfb]
            exact (compute_bg_lci_frame fb _ thr count solver fb1 bx1 hbl).1
        · rw [if_neg hcomp] at hok
          have hfb : fb = fb' := congrArg Prod.fst (Except.ok.inj hok)
          rw [← hfb]
          exact sameButLu_refl fb
  · intro fb' out hok
    rw [FlatBackground.sys_lci] at hok
    rcases hbl : fb.compute_bg_lci (sysAdTilde fb demand thr count solver) thr
        count solver with e | ⟨fb1, bgx⟩
    · rw [hbl] at hok
      cases hok
    · rw [hbl] at hok
      have hok2 : (Except.ok (fb1,
          fb1.generate_em_defs (sysClassified fb demand).node_ref
            (fun i => bgx i + sysBfTilde fb demand thr count solver i)
          ++ (sysClassified fb demand).missed) :
          Except String (FlatBackground × List ExchDef)) = .ok (fb', out) := hok
      have hfb : fb1 = fb' := congrArg Prod.fst (Except.ok.inj hok2)
      rw [← hfb]
      exact (compute_bg_lci_frame fb _ thr count solver fb1 bgx hbl).1

/-- Witness for C6 at the complete fixture: a `factorize` solve succeeds
and returns the one-shot-updated state. -/
theorem C6_lu_only_mutation_witness :
    fbC.lciDb = some (zeroMat, mat1) ∧
    (∃ bx, fbC.compute_bg_lci zeroVec 0 1 .factorize =
      .ok ((if Solver.factorize = Solver.factorize ∧ fbC.lu.isNone = true
            then { fbC with lu := some (imatOf zeroMat) } else fbC), bx)) :=
  ⟨rfl, (C6_lu_only_mutation fbC zeroVec 0 1 .factorize zeroMat mat1 "" "" []
    rfl).1⟩

/-! ## C3 — `sys_lci` ordering and missed pass-through -/

/-- One classification pass appends to `missed` exactly what the
declarative classification says it should. -/
lemma sysStep_missed (fb : FlatBackground) (s : SysState) (x : DmdExch) :
    (sysStep fb s x).missed = s.missed ++ (missedOf fb x).toList := by
  rcases hx : x.dterm with c | t | _
  · by_cases hn : s.node_ref = none <;>
      simp [sysStep, hx, hn, missedOf]
  · by_cases hn : s.node_ref = none <;>
      rcases hfg : fb.fgIndex (t, x.flow) with _ | i <;>
      rcases hbg : fb.bgIndex (t, x.flow) with _ | j <;>
      simp [sysStep, hx, hn, hfg, hbg, missedOf]
  · by_cases hn : s.node_ref = none <;>
      simp [sysStep, hx, hn, missedOf]

/-- The classification loop accumulates `missed` in caller order, as the
declarative `filterMap` of the classification. -/
lemma sysFold_missed (fb : FlatBackground) (demand : List DmdExch) :
    ∀ s : SysState, (demand.foldl (sysStep fb) s).missed =
      s.missed ++ demand.filterMap (missedOf fb) := by
  induction demand with
  | nil => intro s; simp
  | cons x xs ih =>
    intro s
    rw [List.foldl_cons, ih, sysStep_missed]
    rcases hmx : missedOf fb x with _ | d <;>
      simp [List.filterMap_cons, hmx, List.append_assoc]

/-- The `missed` tail of the full classification. -/
lemma sysClassified_missed (fb : FlatBackground) (demand : List DmdExch) :
    (sysClassified fb demand).missed = demand.filterMap (missedOf fb) := by
  rw [sysClassified, sysFold_missed]
  simp [sysState0]

/-- C3: for every demand list on a complete database, `sys_lci` does not
fail; it yields the numerical exchanges first, indexed by a strictly
increasing list of exterior (XR) indices, and afterwards every `missed`
entry — context-terminated exchanges, null-termination exchanges, and
exchanges resolved by neither index map — in the order they appeared in
the input. -/
theorem C3_sys_lci_ordering (fb : FlatBackground) (demand : List DmdExch)
    (thr : ℚ) (count : Nat) (solver : Solver) (A B : Mat)
    (h : fb.lciDb = some (A, B)) :
    ∃ fb' node bx,
      fb.sys_lci demand thr count solver =
        .ok (fb', (nonzeroIdx fb.mdim bx).map (emDefAt fb' node bx)
          ++ demand.filterMap (missedOf fb)) ∧
      List.Sorted (· < ·) (nonzeroIdx fb.mdim bx) := by
  have hok : ∃ fb1 bgx, fb.compute_bg_lci
      (sysAdTilde fb demand thr count solver) thr count solver =
        .ok (fb1, bgx) := by
    rcases hl : fb.lu with _ | l
    · by_cases hs : solver = .factorize
      · exact ⟨_, _, compute_bg_lci_create fb _ thr count solver A B h
          ⟨hs, by simp [hl]⟩⟩
      · exact ⟨_, _, compute_bg_lci_iter fb _ thr count solver A B h hl hs⟩
    · exact ⟨_, _, compute_bg_lci_cached fb _ thr count solver A B h l hl⟩
  obtain ⟨fb1, bgx, hok⟩ := hok
  have hex : fb1.ex = fb.ex :=
    (compute_bg_lci_frame fb _ thr count solver fb1 bgx hok).1.2.2.1
  have hm : fb1.mdim = fb.mdim := by
    rw [FlatBackground.mdim, FlatBackground.mdim, hex]
  refine ⟨fb1, (sysClassified fb demand).node_ref,
    (fun i => bgx i + sysBfTilde fb demand thr count solver i), ?_,
    nonzeroIdx_sorted _ _⟩
  rw [FlatBackground.sys_lci, hok]
  show (Except.ok (fb1,
      fb1.generate_em_defs (sysClassified fb demand).node_ref
        (fun i => bgx i + sysBfTilde fb demand thr count solver i)
      ++ (sysClassified fb demand).missed) :
    Except String (FlatBackground × List ExchDef)) = _
  rw [FlatBackground.generate_em_defs, hm, sysClassified_missed]

/-- Witness for C3 at the complete fixture, on a one-element
context-terminated demand. -/
theorem C3_sys_lci_ordering_witness :
    fbC.lciDb = some (zeroMat, mat1) ∧
    (∃ fb' node bx,
      fbC.sys_lci [⟨"P1", "co2", .Output, .context ["air"], 5⟩] 0 1 .iterative =
        .ok (fb', (nonzeroIdx fbC.mdim bx).map (emDefAt fb' node bx)
          ++ [(⟨"P1", "co2", .Output, .context ["air"], 5⟩ : DmdExch)].filterMap
            (missedOf fbC)) ∧
      List.Sorted (· < ·) (nonzeroIdx fbC.mdim bx)) :=
  ⟨rfl, C3_sys_lci_ordering fbC [⟨"P1", "co2", .Output, .context ["air"], 5⟩]
    0 1 .iterative zeroMat mat1 rfl⟩

/-! ## C4 — the iterative solve is a truncated power series -/

/-- Unfolding one pass of the iteration loop. -/
lemma iterLoop_succ (a : Mat) (dim : Nat) (thr : ℚ) (fuel : Nat) (y total : Vec)
    (s : ℚ) :
    iterLoop a dim thr (fuel + 1) y total s =
      (let total2 : Vec := fun i => total i + y i
       let y2 := mulVec a dim y
       let inc := l1norm dim y2
       if inc = 0 then total2
       else if inc / (s + inc) < thr then total2
       else iterLoop a dim thr fuel y2 total2 (s + inc)) := rfl

/-- Loop invariant: started at the `j`-th power term with the partial sum
and running total of the first `j` increments, the loop performs some
`N ≤ fuel` further passes, returns the partial sum `Σ_{k<j+N} a^k y`,
stops early only when the stopping rule fires, and fires no earlier. -/
lemma iterLoop_psum (a : Mat) (dim : Nat) (y : Vec) (thr : ℚ) :
    ∀ (fuel j : Nat),
      ∃ N, N ≤ fuel ∧
        iterLoop a dim thr fuel (powTerm a dim y j) (psum a dim y j)
          (runTot a dim y j) = psum a dim y (j + N) ∧
        (∀ k, j ≤ k → k + 1 < j + N → ¬ stopCond a dim y thr k) ∧
        (N < fuel → 1 ≤ N ∧ stopCond a dim y thr (j + N - 1)) := by
  intro fuel
  induction fuel with
  | zero =>
    intro j
    refine ⟨0, Nat.le_refl 0, rfl, ?_, ?_⟩
    · intro k hk hk2
      exact absurd hk2 (by omega)
    · intro hlt
      exact absurd hlt (by omega)
  | succ fuel ih =>
    intro j
    have hy2 : mulVec a dim (powTerm a dim y j) = powTerm a dim y (j + 1) := rfl
    have htot : (fun i => psum a dim y j i + powTerm a dim y j i) =
        psum a dim y (j + 1) := rfl
    have hrt : runTot a dim y j + l1norm dim (powTerm a dim y (j + 1)) =
        runTot a dim y (j + 1) := rfl
    rw [iterLoop_succ]
    simp only [hy2, htot, hrt]
    by_cases h0 : l1norm dim (powTerm a dim y (j + 1)) = 0
    · refine ⟨1, by omega, ?_, ?_, ?_⟩
      · rw [if_pos h0]
      · intro k hk hk2
        exact absurd hk2 (by omega)
      · intro _
        rw [Nat.add_sub_cancel]
        exact ⟨Nat.le_refl 1, Or.inl h0⟩
    · by_cases hthr : l1norm dim (powTerm a dim y (j + 1)) /
          runTot a dim y (j + 1) < thr
      · refine ⟨1, by omega, ?_, ?_, ?_⟩
        · rw [if_neg h0, if_pos hthr]
        · intro k hk hk2
          exact absurd hk2 (by omega)
        · intro _
          rw [Nat.add_sub_cancel]
          exact ⟨Nat.le_refl 1, Or.inr hthr⟩
      · obtain ⟨N', hle, heq, hcond, hstop⟩ := ih (j + 1)
        have hidx : j + 1 + N' = j + (N' + 1) := by omega
        refine ⟨N' + 1, by omega, ?_, ?_, ?_⟩
        · rw [if_neg h0, if_neg hthr]
          rw [hidx] at heq
          exact heq
        · intro k hk hk2
          rcases Nat.eq_or_lt_of_le hk with rfl | hk'
          · intro hs
            rcases hs with hs | hs
            · exact h0 hs
            · exact hthr hs
          · exact hcond k hk' (by omega)
        · intro hlt2
          refine ⟨by omega, ?_⟩
          by_cases hN : N' = 0
          · exact absurd (hstop (by omega)).1 (by omega)
          · have hlt' : N' < fuel := by omega
            have h2 := (hstop hlt').2
            have hsame : j + 1 + N' - 1 = j + (N' + 1) - 1 := by omega
            rw [hsame] at h2
            exact h2

/-- C4: when the solver is not `spsolve`, `_iterate_a_matrix` returns the
truncated power series `Σ_{k<N} a^k y` where the number of performed
iterations `N` never exceeds `max_iter`, iteration stops early exactly
when the stopping rule (zero increment, or increment-to-running-total
ratio below threshold) first fires, and no earlier iteration satisfied
the rule. -/
theorem C4_iterate_truncated_series (a : Mat) (dim : Nat) (y : Vec)
    (thr : ℚ) (count : Nat) (solver : Solver) (hs : solver ≠ .spsolve) :
    ∃ N, N ≤ count ∧
      iterate_a_matrix a dim y thr count solver = psum a dim y N ∧
      (∀ j, j + 1 < N → ¬ stopCond a dim y thr j) ∧
      (N < count → 1 ≤ N ∧ stopCond a dim y thr (N - 1)) := by
  have hiter : iterate_a_matrix a dim y thr count solver =
      iterLoop a dim thr count y zeroVec 0 := by
    cases solver with
    | iterative => rfl
    | spsolve => exact absurd rfl hs
    | factorize => rfl
  obtain ⟨N, hle, heq, hcond, hstop⟩ := iterLoop_psum a dim y thr count 0
  refine ⟨N, hle, ?_, ?_, ?_⟩
  · rw [hiter]
    have heq2 : iterLoop a dim thr count y zeroVec 0 = psum a dim y (0 + N) :=
      heq
    rw [heq2, Nat.zero_add]
  · intro k hk
    exact hcond k (Nat.zero_le k) (by omega)
  · intro hlt
    obtain ⟨h1, h2⟩ := hstop hlt
    rw [Nat.zero_add] at h2
    exact ⟨h1, h2⟩

/-- Witness for C4: the iterative solver is admissible and the theorem
instantiates at concrete arguments. -/
theorem C4_iterate_truncated_series_witness :
    (Solver.iterative ≠ Solver.spsolve) ∧
    (∃ N, N ≤ 1 ∧
      iterate_a_matrix zeroMat 1 (unit_column_vector 0) 0 1 .iterative =
        psum zeroMat 1 (unit_column_vector 0) N ∧
      (∀ j, j + 1 < N → ¬ stopCond zeroMat 1 (unit_column_vector 0) 0 j) ∧
      (N < 1 → 1 ≤ N ∧ stopCond zeroMat 1 (unit_column_vector 0) 0 (N - 1))) :=
  ⟨by decide,
   C4_iterate_truncated_series zeroMat 1 (unit_column_vector 0) 0 1 .iterative
     (by decide)⟩

end Antelope
